import Mathlib

/-!
Shallow embedding of the service-to-service authentication layer
(`runtime/appruntime/apisdk/api/svcauth/pkgfn.go`) and the experiment-flag
set (`pkg/experiments/experiment.go`) of the encore repository, together
with theorems settling the specification claims about them.
-/

namespace Svcauth

/-- The transport metadata carrier: a request's key/value metadata.
Go mutation of the request is modelled by explicit state passing. -/
structure Transport where
  meta : List (String × String)
deriving DecidableEq

/-- The fixed metadata key `AuthMethodMetaKey = "Svc-Auth-Method"`. -/
def AuthMethodMetaKey : String := "Svc-Auth-Method"

/-- Transport collaborator operation `SetMeta(key, value)`: records the
entry; a later entry for the same key shadows earlier ones on read. -/
def Transport.SetMeta (t : Transport) (key value : String) : Transport :=
  ⟨(key, value) :: t.meta⟩

/-- Transport collaborator operation `ReadMeta(key) -> (value, found)`,
modelled as an `Option`. -/
def Transport.ReadMeta (t : Transport) (key : String) : Option String :=
  (t.meta.find? (fun p => p.1 == key)).map (fun p => p.2)

/-- Modelled from the spec: the `ServiceAuth` interface itself is declared
outside the provided sources; per the spec it has operations
`method() -> MethodName`, `sign(request)` and `verify(request)`.
Go's in-place mutation of the request by `sign` is modelled by returning
the updated transport next to the optional error; `verify` returns only
its optional error (its result is all `Verify` consults). -/
structure ServiceAuth where
  method : String
  sign : Transport → Transport × Option String
  verify : Transport → Option String

/-- Error taxonomy of the layer: each constructor carries the wrapped
underlying cause (or the offending method name), mirroring the
`fmt.Errorf("...: %w", err)` wrapping in the source. -/
inductive SvcAuthError where
  | signFailure (cause : String)
  | verifyFailure (cause : String)
  | unknownMethod (methodName : String)
deriving DecidableEq

/-- Translation of `Sign` from pkgfn.go: run the method's `sign`; on error
return it wrapped as a signing failure (without writing the marker); on
success stamp the method name under `AuthMethodMetaKey`. -/
def Sign (method : ServiceAuth) (req : Transport) : Transport × Option SvcAuthError :=
  match method.sign req with
  | (req2, some cause) => (req2, some (.signFailure cause))
  | (req2, none) => (req2.SetMeta AuthMethodMetaKey method.method, none)

/-- The loop body of `Verify` over `loadedAuthMethods`: first method whose
name equals the declared one is delegated to; if none matches the declared
name is reported as unknown. -/
def verifyLoop (req : Transport) (method : String) : List ServiceAuth → Bool × Option SvcAuthError
  | [] => (false, some (.unknownMethod method))
  | authMethod :: rest =>
    if authMethod.method == method then
      match authMethod.verify req with
      | some cause => (false, some (.verifyFailure cause))
      | none => (true, none)
    else
      verifyLoop req method rest

/-- Translation of `Verify` from pkgfn.go. -/
def Verify (req : Transport) (loadedAuthMethods : List ServiceAuth) : Bool × Option SvcAuthError :=
  match req.ReadMeta AuthMethodMetaKey with
  | none => (false, none)
  | some method => verifyLoop req method loadedAuthMethods

/-- Instrumented copy of the `Verify` loop that additionally records the
names of the methods whose `verify` operation is invoked. -/
def verifyLoopTrace (req : Transport) (method : String) :
    List ServiceAuth → (Bool × Option SvcAuthError) × List String
  | [] => ((false, some (.unknownMethod method)), [])
  | authMethod :: rest =>
    if authMethod.method == method then
      (match authMethod.verify req with
        | some cause => (false, some (.verifyFailure cause))
        | none => (true, none), [authMethod.method])
    else
      verifyLoopTrace req method rest

theorem readMeta_setMeta_self (t : Transport) (k v : String) :
    (t.SetMeta k v).ReadMeta k = some v := by
  simp [Transport.SetMeta, Transport.ReadMeta, List.find?]

theorem verifyLoop_skip (req : Transport) (m : String) (l1 l2 : List ServiceAuth)
    (h : ∀ b ∈ l1, b.method ≠ m) :
    verifyLoop req m (l1 ++ l2) = verifyLoop req m l2 := by
  induction l1 with
  | nil => rfl
  | cons a rest ih =>
    have ha : (a.method == m) = false := by
      exact beq_eq_false_iff_ne.mpr (h a (List.mem_cons_self a rest))
    simp only [List.cons_append, verifyLoop, ha, Bool.false_eq_true, if_false]
    exact ih (fun b hb => h b (List.mem_cons_of_mem a hb))

theorem verifyLoop_found (req : Transport) (m : String) (a : ServiceAuth)
    (l2 : List ServiceAuth) (ha : a.method = m) :
    verifyLoop req m (a :: l2) =
      match a.verify req with
      | some cause => (false, some (.verifyFailure cause))
      | none => (true, none) := by
  simp [verifyLoop, ha]

end Svcauth

namespace Experiments

/-- Go's `type Name string`. -/
abbrev Name := String

/-- The environment variable name `envName = "ENCORE_EXPERIMENT"`. -/
def envName : String := "ENCORE_EXPERIMENT"

/-- Experiment constant `LocalSecretsOverride`. -/
def LocalSecretsOverride : Name := "local-secrets-override"

/-- Experiment constant `Metrics`. -/
def Metrics : Name := "metrics"

/-- Experiment constant `V2`. -/
def V2 : Name := "v2"

/-- Experiment constant `BetaRuntime`. -/
def BetaRuntime : Name := "beta-runtime"

/-- Experiment constant for forcing RPC calls to be made over the wire;
its value is the string "external-calls". -/
def ForcedWireCalls : Name := "external-calls"

/-- Translation of `Name.Valid`: the switch over the known experiments. -/
def Name.Valid (x : Name) : Bool :=
  x == LocalSecretsOverride || x == Metrics || x == V2 || x == BetaRuntime ||
    x == ForcedWireCalls

/-- The experiment set. Go's `map[Name]bool` (whose entries are only ever
set to `true`) is modelled by its list of keys; `add` inserts a key only
when it is not already present, matching map-assignment semantics. -/
structure Set where
  experiments : List Name
deriving DecidableEq

/-- Translation of `Name.Enabled`: a nil set (here `none`) enables
nothing; otherwise look the name up in the set. -/
def Name.Enabled (x : Name) (set : Option Set) : Bool :=
  match set with
  | none => false
  | some s => s.experiments.contains x

/-- The `*UnknownExperimentError` type: carries the unknown name. -/
structure UnknownExperimentError where
  name : Name
deriving DecidableEq

/-- Translation of `(*Set).add`: skip empty keys, reject invalid keys
with an `UnknownExperimentError`, otherwise mark the key present. -/
def Set.add (s : Set) : List Name → Except UnknownExperimentError Set
  | [] => .ok s
  | key :: rest =>
    if key == "" then Set.add s rest
    else if !(Name.Valid key) then .error ⟨key⟩
    else Set.add ⟨if s.experiments.contains key then s.experiments
                  else s.experiments ++ [key]⟩ rest

/-- Go's byte-wise lexicographic string order (the order `slices.Sort`
uses on strings), expressed on the character lists. -/
def charListLe : List Char → List Char → Bool
  | [], _ => true
  | _ :: _, [] => false
  | a :: as, b :: bs =>
    if a < b then true
    else if b < a then false
    else charListLe as bs

/-- The ordering on experiment names used when listing a set. -/
def nameLe (a b : Name) : Bool := charListLe a.toList b.toList

/-- Insertion step of the sort used by `Set.List`. -/
def insertSorted (x : Name) : List Name → List Name
  | [] => [x]
  | y :: rest => if nameLe x y then x :: y :: rest else y :: insertSorted x rest

/-- The sort `slices.Sort` performs on the key list. -/
def sortNames : List Name → List Name
  | [] => []
  | x :: rest => insertSorted x (sortNames rest)

/-- Abbreviation for the result type of `Set.List` (spelt this way because
inside the `Set` namespace the bare name `List` refers to `Set.List`). -/
abbrev NameList := List Name

/-- Translation of `(*Set).List`: nil gives nil; otherwise the sorted
keys of the map (`maps.Keys` returns the keys in unspecified order and
`slices.Sort` sorts them, so the observable result is the sorted key
set). -/
def Set.List (s : Option Set) : NameList :=
  match s with
  | none => []
  | some s => sortNames s.experiments

/-- Predicate used by `parseEnvVal`'s trim: Go `strings.Trim(val, "\"'")`
removes leading and trailing double- and single-quote characters
(single quote = character code 39). -/
def isQuoteChar (c : Char) : Bool := c == '"' || c == Char.ofNat 39

/-- The trim step of `parseEnvVal`. -/
def trimQuotes (val : String) : String :=
  String.mk (((val.toList.dropWhile isQuoteChar).reverse.dropWhile isQuoteChar).reverse)

/-- Go's `strings.Split(val, ",")` on the character list: split at every
comma, keeping empty segments. -/
def splitOnComma : List Char → List (List Char)
  | [] => [[]]
  | c :: rest =>
    match splitOnComma rest with
    | [] => [[]]
    | cur :: parts =>
      if c == ',' then [] :: cur :: parts else (c :: cur) :: parts

/-- Translation of `parseEnvVal`: empty value gives nil, otherwise trim
surrounding quotes and split on commas. -/
def parseEnvVal (val : String) : List Name :=
  if val == "" then []
  else (splitOnComma (trimQuotes val).toList).map (fun cs => String.mk cs)

/-- The loop of `NewSet` over the caller-supplied `environ` slice: every
entry with the `ENCORE_EXPERIMENT=` prefix contributes its parsed value. -/
def environAdd (s : Set) : List String → Except UnknownExperimentError Set
  | [] => .ok s
  | env :: rest =>
    if (envName ++ "=").isPrefixOf env then
      match Set.add s (parseEnvVal (env.drop (envName ++ "=").length)) with
      | .error e => .error e
      | .ok s2 => environAdd s2 rest
    else environAdd s rest

/-- Translation of `NewSet`. The parameter `procEnvVal` stands for the
result of `os.Getenv("ENCORE_EXPERIMENT")` in this process (the empty
string when the variable is unset), made explicit for the embedding. -/
def NewSet (fromAppFile : List Name) (procEnvVal : String) (environ : List String) :
    Except UnknownExperimentError Set :=
  match Set.add ⟨[]⟩ fromAppFile with
  | .error e => .error e
  | .ok s =>
    match (if procEnvVal != "" then Set.add s (parseEnvVal procEnvVal) else .ok s) with
    | .error e => .error e
    | .ok s2 => environAdd s2 environ

/-- The experiment names contributed by the `environ` parameter. -/
def environNames : List String → List Name
  | [] => []
  | env :: rest =>
    (if (envName ++ "=").isPrefixOf env then
        parseEnvVal (env.drop (envName ++ "=").length)
      else []) ++ environNames rest

/-- All experiment names `NewSet` feeds to `add`, in processing order. -/
def allInputNames (fromAppFile : List Name) (procEnvVal : String) (environ : List String) :
    List Name :=
  fromAppFile ++ (if procEnvVal != "" then parseEnvVal procEnvVal else []) ++
    environNames environ

/-- The first nonempty invalid name of a list, if any: this is the name
carried by the error `add` reports on that list. -/
def firstInvalid : List Name → Option Name
  | [] => none
  | key :: rest =>
    if key == "" then firstInvalid rest
    else if !(Name.Valid key) then some key
    else firstInvalid rest

theorem add_append (s : Set) (l1 l2 : List Name) :
    Set.add s (l1 ++ l2) =
      match Set.add s l1 with
      | .error e => .error e
      | .ok s2 => Set.add s2 l2 := by
  induction l1 generalizing s with
  | nil => rfl
  | cons key rest ih =>
    by_cases h0 : key == ""
    · simp only [List.cons_append, Set.add, h0, if_true]
      exact ih s
    · by_cases hv : Name.Valid key
      · simp only [List.cons_append, Set.add, h0, if_false, hv,
          Bool.not_true, Bool.false_eq_true, if_false]
        exact ih _
      · have hv2 : (!(Name.Valid key)) = true := by
          simp [Bool.eq_false_iff.mpr hv]
        simp [List.cons_append, Set.add, h0, hv2]

theorem environAdd_eq_add (s : Set) (environ : List String) :
    environAdd s environ = Set.add s (environNames environ) := by
  induction environ generalizing s with
  | nil => rfl
  | cons env rest ih =>
    by_cases hp : (envName ++ "=").isPrefixOf env
    · simp only [environAdd, hp, if_true, environNames, add_append]
      cases Set.add s (parseEnvVal (env.drop (envName ++ "=").length)) with
      | error e => rfl
      | ok s2 => exact ih s2
    · simp only [environAdd, hp, if_false, environNames, List.nil_append]
      exact ih s

theorem newSet_eq_add (fromAppFile : List Name) (procEnvVal : String)
    (environ : List String) :
    NewSet fromAppFile procEnvVal environ =
      Set.add ⟨[]⟩ (allInputNames fromAppFile procEnvVal environ) := by
  simp only [NewSet, allInputNames, add_append]
  cases Set.add ⟨[]⟩ fromAppFile with
  | error e => rfl
  | ok s =>
    by_cases hp : procEnvVal != ""
    · simp only [hp, if_true]
      cases Set.add s (parseEnvVal procEnvVal) with
      | error e => rfl
      | ok s2 => exact environAdd_eq_add s2 environ
    · simp only [hp, if_false]
      exact environAdd_eq_add s environ

theorem add_error_of_firstInvalid (s : Set) (keys : List Name) (e : Name)
    (h : firstInvalid keys = some e) : Set.add s keys = .error ⟨e⟩ := by
  induction keys generalizing s with
  | nil => simp [firstInvalid] at h
  | cons key rest ih =>
    by_cases h0 : key == ""
    · simp only [firstInvalid, h0, if_true] at h
      simp only [Set.add, h0, if_true]
      exact ih s h
    · by_cases hv : Name.Valid key
      · simp only [firstInvalid, h0, if_false, hv, Bool.not_true,
          Bool.false_eq_true, if_false] at h
        simp only [Set.add, h0, if_false, hv, Bool.not_true,
          Bool.false_eq_true, if_false]
        exact ih _ h
      · have hvf : Name.Valid key = false := Bool.eq_false_iff.mpr hv
        have h0f : (key == "") = false := Bool.eq_false_iff.mpr h0
        have hk : firstInvalid (key :: rest) = some key := by
          simp [firstInvalid, h0f, hvf]
        rw [hk] at h
        obtain rfl : key = e := Option.some.inj h
        simp [Set.add, h0f, hvf]

theorem add_ok_of_firstInvalid_none (s : Set) (keys : List Name)
    (h : firstInvalid keys = none) : ∃ s2, Set.add s keys = .ok s2 := by
  induction keys generalizing s with
  | nil => exact ⟨s, rfl⟩
  | cons key rest ih =>
    by_cases h0 : key == ""
    · simp only [firstInvalid, h0, if_true] at h
      simp only [Set.add, h0, if_true]
      exact ih s h
    · by_cases hv : Name.Valid key
      · simp only [firstInvalid, h0, if_false, hv, Bool.not_true,
          Bool.false_eq_true, if_false] at h
        simp only [Set.add, h0, if_false, hv, Bool.not_true,
          Bool.false_eq_true, if_false]
        exact ih _ h
      · have hv2 : (!(Name.Valid key)) = true := by
          simp [Bool.eq_false_iff.mpr hv]
        simp [firstInvalid, h0, hv2] at h

theorem firstInvalid_spec (keys : List Name) (e : Name)
    (h : firstInvalid keys = some e) :
    e ∈ keys ∧ Name.Valid e = false ∧ e ≠ "" := by
  induction keys with
  | nil => simp [firstInvalid] at h
  | cons key rest ih =>
    by_cases h0 : key == ""
    · simp only [firstInvalid, h0, if_true] at h
      obtain ⟨h1, h2, h3⟩ := ih h
      exact ⟨List.mem_cons_of_mem key h1, h2, h3⟩
    · by_cases hv : Name.Valid key
      · simp only [firstInvalid, h0, if_false, hv, Bool.not_true,
          Bool.false_eq_true, if_false] at h
        obtain ⟨h1, h2, h3⟩ := ih h
        exact ⟨List.mem_cons_of_mem key h1, h2, h3⟩
      · have hvf : Name.Valid key = false := Bool.eq_false_iff.mpr hv
        have h0f : (key == "") = false := Bool.eq_false_iff.mpr h0
        have hk : firstInvalid (key :: rest) = some key := by
          simp [firstInvalid, h0f, hvf]
        rw [hk] at h
        obtain rfl : key = e := Option.some.inj h
        exact ⟨List.mem_cons_self key rest, hvf, fun hc => h0 (by simp [hc])⟩

theorem firstInvalid_isSome_of_mem (keys : List Name) (x : Name)
    (hx : x ∈ keys) (hne : x ≠ "") (hv : Name.Valid x = false) :
    (firstInvalid keys).isSome := by
  induction keys with
  | nil => cases hx
  | cons key rest ih =>
    by_cases h0 : key == ""
    · simp only [firstInvalid, h0, if_true]
      rcases List.mem_cons.mp hx with h | h
      · have hkey : key = "" := by simpa using h0
        exact absurd (h.trans hkey) hne
      · exact ih h
    · by_cases hkv : Name.Valid key
      · simp only [firstInvalid, h0, if_false, hkv, Bool.not_true,
          Bool.false_eq_true, if_false]
        rcases List.mem_cons.mp hx with h | h
        · rw [h] at hv; simp [hkv] at hv
        · exact ih h
      · have hv2 : (!(Name.Valid key)) = true := by
          simp [Bool.eq_false_iff.mpr hkv]
        simp [firstInvalid, h0, hv2]

theorem add_filter_empty (s : Set) (l : List Name) :
    Set.add s l = Set.add s (l.filter (fun k => !(k == ""))) := by
  induction l generalizing s with
  | nil => rfl
  | cons key rest ih =>
    by_cases h0 : key == ""
    · simp only [Set.add, h0, if_true, List.filter, Bool.not_true]
      exact ih s
    · have h0f : (key == "") = false := Bool.eq_false_iff.mpr h0
      simp only [List.filter, h0f, Bool.not_false]
      by_cases hv : Name.Valid key
      · simp only [Set.add, h0f, Bool.false_eq_true, if_false, hv,
          Bool.not_true, if_false]
        exact ih _
      · have hv2 : (!(Name.Valid key)) = true := by
          simp [Bool.eq_false_iff.mpr hv]
        simp [Set.add, h0f, hv2]

theorem add_filter_left (s : Set) (l r : List Name) :
    Set.add s (l ++ r) = Set.add s (l.filter (fun k => !(k == "")) ++ r) := by
  rw [add_append, add_append, ← add_filter_empty]

theorem add_no_empty (s : Set) (l : List Name) (s2 : Set)
    (hs : "" ∉ s.experiments) (h : Set.add s l = .ok s2) :
    "" ∉ s2.experiments := by
  induction l generalizing s with
  | nil =>
    simp only [Set.add, Except.ok.injEq] at h
    exact h ▸ hs
  | cons key rest ih =>
    by_cases h0 : key == ""
    · simp only [Set.add, h0, if_true] at h
      exact ih s hs h
    · by_cases hv : Name.Valid key
      · simp only [Set.add, h0, if_false, hv, Bool.not_true,
          Bool.false_eq_true, if_false] at h
        refine ih _ ?_ h
        cases hc : s.experiments.contains key with
        | true => simpa [hc] using hs
        | false =>
          simp only [hc, Bool.false_eq_true, if_false]
          intro hmem
          rcases List.mem_append.mp hmem with hmem2 | hkey
          · exact hs hmem2
          · have hk2 : key = "" := (List.mem_singleton.mp hkey).symm
            exact h0 (by simp [hk2])
      · have hv2 : (!(Name.Valid key)) = true := by
          simp [Bool.eq_false_iff.mpr hv]
        simp [Set.add, h0, hv2] at h

end Experiments

/-- Claim C8: with app-declared flags ["metrics"] and the environment
supplying ENCORE_EXPERIMENT = "v2,metrics", NewSet succeeds and the set
lists exactly ["metrics", "v2"] in sorted order; and whenever the inputs
contain an unrecognized (nonempty) flag name, NewSet returns an
UnknownExperimentError naming an unrecognized flag from the inputs. -/
theorem C8_newSet_scenario_and_unknown_flag :
    (∃ s, Experiments.NewSet ["metrics"] "v2,metrics" [] = .ok s ∧
        Experiments.Set.List (some s) = ["metrics", "v2"]) ∧
      (∀ f p env x, x ∈ Experiments.allInputNames f p env → x ≠ "" →
        Experiments.Name.Valid x = false →
        ∃ e, Experiments.NewSet f p env = .error ⟨e⟩ ∧
          Experiments.Name.Valid e = false ∧ e ≠ "" ∧
          e ∈ Experiments.allInputNames f p env) := by
  constructor
  · exact ⟨⟨["metrics", "v2"]⟩, rfl, rfl⟩
  · intro f p env x hx hne hv
    have hsome := Experiments.firstInvalid_isSome_of_mem _ x hx hne hv
    obtain ⟨e, he⟩ := Option.isSome_iff_exists.mp hsome
    obtain ⟨h1, h2, h3⟩ := Experiments.firstInvalid_spec _ e he
    exact ⟨e, (Experiments.newSet_eq_add f p env).trans
      (Experiments.add_error_of_firstInvalid _ _ e he), h2, h3, h1⟩

/-- Witness for C8: the unknown flag "bogus" in the app-file list makes
NewSet fail with an error naming an unknown flag from the inputs. -/
theorem C8_witness :
    ("bogus" ∈ Experiments.allInputNames ["bogus"] "" []) ∧
      ∃ e, Experiments.NewSet ["bogus"] "" [] = .error ⟨e⟩ ∧
        Experiments.Name.Valid e = false ∧ e ≠ "" ∧
        e ∈ Experiments.allInputNames ["bogus"] "" [] := by
  refine ⟨by decide, ?_⟩
  exact C8_newSet_scenario_and_unknown_flag.2 ["bogus"] "" [] "bogus"
    (by decide) (by decide) rfl

/-- Claim C9: a nil experiment set behaves as the set in which no
experiment is enabled: Enabled is false for every name and List is
empty, with no failure. -/
theorem C9_nil_set_benign (x : Experiments.Name) :
    Experiments.Name.Enabled x none = false ∧
      Experiments.Set.List none = [] :=
  ⟨rfl, rfl⟩

/-- Witness for C9 at a concrete experiment name. -/
theorem C9_witness :
    Experiments.Name.Enabled "metrics" none = false ∧
      Experiments.Set.List none = [] :=
  C9_nil_set_benign "metrics"

/-- Claim C10: empty flag names are silently skipped when building a set:
removing them from any input list never changes the outcome of add or
NewSet, the built set never contains the empty name, and concretely an
empty app-file entry and empty env-value segments neither error nor land
in the set. -/
theorem C10_empty_flag_names_skipped :
    (∀ s l, Experiments.Set.add s l =
        Experiments.Set.add s (l.filter (fun k => !(k == "")))) ∧
      (∀ f p env, Experiments.NewSet f p env =
        Experiments.NewSet (f.filter (fun k => !(k == ""))) p env) ∧
      (∀ f p env out, Experiments.NewSet f p env = .ok out →
        "" ∉ out.experiments) ∧
      Experiments.NewSet [""] "" [] = .ok ⟨[]⟩ ∧
      Experiments.NewSet [] "v2,," [] = .ok ⟨["v2"]⟩ := by
  refine ⟨Experiments.add_filter_empty, ?_, ?_, rfl, rfl⟩
  · intro f p env
    rw [Experiments.newSet_eq_add, Experiments.newSet_eq_add]
    simp only [Experiments.allInputNames]
    rw [List.append_assoc, List.append_assoc]
    exact Experiments.add_filter_left _ f _
  · intro f p env out h
    rw [Experiments.newSet_eq_add] at h
    exact Experiments.add_no_empty ⟨[]⟩ _ out (by simp) h

/-- Witness for C10: a concrete successful construction whose set does
not contain the empty name. -/
theorem C10_witness :
    Experiments.NewSet ["metrics"] "" [] = .ok ⟨["metrics"]⟩ ∧
      "" ∉ (Experiments.Set.mk ["metrics"]).experiments :=
  ⟨rfl, C10_empty_flag_names_skipped.2.2.1 ["metrics"] "" [] ⟨["metrics"]⟩ rfl⟩

/-- A concrete method whose sign and verify always succeed; used to
instantiate theorems at concrete inputs. -/
def okAuth (name : String) : Svcauth.ServiceAuth :=
  { method := name, sign := fun t => (t, none), verify := fun _ => none }

/-- A concrete method whose verify always fails. -/
def failVerifyAuth (name : String) : Svcauth.ServiceAuth :=
  { method := name, sign := fun t => (t, none), verify := fun _ => some "bad signature" }

/-- A concrete method whose sign always fails. -/
def failSignAuth (name : String) : Svcauth.ServiceAuth :=
  { method := name, sign := fun t => (t, some "missing key"), verify := fun _ => none }

/-- A request with no metadata. -/
def emptyReq : Svcauth.Transport := ⟨[]⟩

theorem verifyLoopTrace_spec (req : Svcauth.Transport) (m : String)
    (loaded : List Svcauth.ServiceAuth) :
    (Svcauth.verifyLoopTrace req m loaded).1 = Svcauth.verifyLoop req m loaded ∧
      (Svcauth.verifyLoopTrace req m loaded).2 =
        ((loaded.find? (fun a => a.method == m)).map
          (fun a => a.method)).toList := by
  induction loaded with
  | nil => exact ⟨rfl, rfl⟩
  | cons a rest ih =>
    cases h : a.method == m with
    | true =>
      simp [Svcauth.verifyLoopTrace, Svcauth.verifyLoop, h, List.find?]
    | false =>
      simp only [Svcauth.verifyLoopTrace, Svcauth.verifyLoop, h,
        Bool.false_eq_true, if_false, List.find?]
      exact ih

/-- Claim C1: for every method M and request R such that M's sign succeeds
on R and M's verify accepts the request M signed, Sign(M, R) succeeds and
then Verify(R, [M]) returns internalCall = true with no error. -/
theorem C1_sign_then_verify_roundtrip (M : Svcauth.ServiceAuth) (R : Svcauth.Transport)
    (hsign : (M.sign R).2 = none)
    (hverify : M.verify ((M.sign R).1.SetMeta Svcauth.AuthMethodMetaKey M.method) = none) :
    (Svcauth.Sign M R).2 = none ∧
      Svcauth.Verify (Svcauth.Sign M R).1 [M] = (true, none) := by
  rcases hms : M.sign R with ⟨r2, e⟩
  rw [hms] at hsign hverify
  simp only at hsign
  subst hsign
  have hSign : Svcauth.Sign M R = (r2.SetMeta Svcauth.AuthMethodMetaKey M.method, none) := by
    simp [Svcauth.Sign, hms]
  refine ⟨by rw [hSign], ?_⟩
  rw [hSign]
  simp only [Svcauth.Verify, Svcauth.readMeta_setMeta_self, Svcauth.verifyLoop,
    beq_self_eq_true, if_true]
  simp only at hverify
  rw [hverify]

/-- Witness for C1 at a concrete method and request. -/
theorem C1_witness :
    ((okAuth "m1").sign emptyReq).2 = none ∧
      (Svcauth.Sign (okAuth "m1") emptyReq).2 = none ∧
      Svcauth.Verify (Svcauth.Sign (okAuth "m1") emptyReq).1 [okAuth "m1"] = (true, none) :=
  ⟨rfl, C1_sign_then_verify_roundtrip (okAuth "m1") emptyReq rfl rfl⟩

/-- Claim C2: a request with no Svc-Auth-Method metadata entry verifies as
(internalCall = false, no error) against any list of loaded methods. -/
theorem C2_absent_marker_not_error (R : Svcauth.Transport)
    (loaded : List Svcauth.ServiceAuth)
    (h : R.ReadMeta Svcauth.AuthMethodMetaKey = none) :
    Svcauth.Verify R loaded = (false, none) := by
  simp [Svcauth.Verify, h]

/-- Witness for C2 at a concrete request, against both the empty list and
a nonempty list of loaded methods. -/
theorem C2_witness :
    emptyReq.ReadMeta Svcauth.AuthMethodMetaKey = none ∧
      Svcauth.Verify emptyReq [] = (false, none) ∧
      Svcauth.Verify emptyReq [okAuth "m1"] = (false, none) :=
  ⟨rfl, C2_absent_marker_not_error emptyReq [] rfl,
    C2_absent_marker_not_error emptyReq [okAuth "m1"] rfl⟩

/-- Claim C3: when the declared method name matches a loaded method (the
first such) and that method's verify fails, Verify returns internalCall =
false together with an error wrapping the cause as a verification failure,
which is distinguishable from the non-internal-call outcome (false, nil). -/
theorem C3_verification_failure_wrapped (R : Svcauth.Transport) (m cause : String)
    (l1 l2 : List Svcauth.ServiceAuth) (a : Svcauth.ServiceAuth)
    (hmeta : R.ReadMeta Svcauth.AuthMethodMetaKey = some m)
    (hskip : ∀ b ∈ l1, b.method ≠ m)
    (ha : a.method = m)
    (hfail : a.verify R = some cause) :
    Svcauth.Verify R (l1 ++ a :: l2) =
        (false, some (Svcauth.SvcAuthError.verifyFailure cause)) ∧
      Svcauth.Verify R (l1 ++ a :: l2) ≠ (false, none) := by
  have h1 : Svcauth.Verify R (l1 ++ a :: l2) =
      (false, some (Svcauth.SvcAuthError.verifyFailure cause)) := by
    simp only [Svcauth.Verify, hmeta]
    rw [Svcauth.verifyLoop_skip R m l1 (a :: l2) hskip,
      Svcauth.verifyLoop_found R m a l2 ha, hfail]
  exact ⟨h1, by rw [h1]; simp⟩

/-- Witness for C3 at a concrete request signed for a method whose
verification fails. -/
theorem C3_witness :
    (emptyReq.SetMeta Svcauth.AuthMethodMetaKey "m1").ReadMeta
        Svcauth.AuthMethodMetaKey = some "m1" ∧
      Svcauth.Verify (emptyReq.SetMeta Svcauth.AuthMethodMetaKey "m1")
          ([] ++ failVerifyAuth "m1" :: []) =
        (false, some (Svcauth.SvcAuthError.verifyFailure "bad signature")) ∧
      Svcauth.Verify (emptyReq.SetMeta Svcauth.AuthMethodMetaKey "m1")
          ([] ++ failVerifyAuth "m1" :: []) ≠ (false, none) := by
  refine ⟨rfl, ?_⟩
  exact C3_verification_failure_wrapped (emptyReq.SetMeta Svcauth.AuthMethodMetaKey "m1")
    "m1" "bad signature" [] [] (failVerifyAuth "m1") rfl (by simp) rfl rfl

/-- Claim C4: when the declared method name matches no loaded method's
name, Verify returns internalCall = false and an unknown-method error
naming the declared method, an error class distinct from verification
failures. -/
theorem C4_unknown_method_error (R : Svcauth.Transport) (m : String)
    (loaded : List Svcauth.ServiceAuth)
    (hmeta : R.ReadMeta Svcauth.AuthMethodMetaKey = some m)
    (hnone : ∀ a ∈ loaded, a.method ≠ m) :
    Svcauth.Verify R loaded = (false, some (Svcauth.SvcAuthError.unknownMethod m)) ∧
      (∀ cause, Svcauth.SvcAuthError.unknownMethod m ≠
        Svcauth.SvcAuthError.verifyFailure cause) := by
  constructor
  · simp only [Svcauth.Verify, hmeta]
    have h2 := Svcauth.verifyLoop_skip R m loaded [] hnone
    rw [List.append_nil] at h2
    rw [h2]
    rfl
  · intro cause h
    cases h

/-- Witness for C4: a request signed with method m1 verified against a
list loaded only with method m2. -/
theorem C4_witness :
    (Svcauth.Sign (okAuth "m1") emptyReq).1.ReadMeta
        Svcauth.AuthMethodMetaKey = some "m1" ∧
      Svcauth.Verify (Svcauth.Sign (okAuth "m1") emptyReq).1 [okAuth "m2"] =
        (false, some (Svcauth.SvcAuthError.unknownMethod "m1")) := by
  refine ⟨rfl, ?_⟩
  exact (C4_unknown_method_error (Svcauth.Sign (okAuth "m1") emptyReq).1 "m1"
    [okAuth "m2"] rfl (by simp [okAuth])).1

/-- Claim C5: when a method's sign fails, Sign returns the failure wrapped
as a signing error and does not write the Svc-Auth-Method entry: the
returned request is exactly what the method's own sign produced, so
whenever that sign left the entry untouched it equals the entry before
the call. -/
theorem C5_sign_failure_no_marker (M : Svcauth.ServiceAuth) (R : Svcauth.Transport)
    (cause : String) (hfail : (M.sign R).2 = some cause) :
    Svcauth.Sign M R = ((M.sign R).1, some (Svcauth.SvcAuthError.signFailure cause)) ∧
      (Svcauth.Sign M R).1.ReadMeta Svcauth.AuthMethodMetaKey =
        (M.sign R).1.ReadMeta Svcauth.AuthMethodMetaKey ∧
      ((M.sign R).1.ReadMeta Svcauth.AuthMethodMetaKey =
          R.ReadMeta Svcauth.AuthMethodMetaKey →
        (Svcauth.Sign M R).1.ReadMeta Svcauth.AuthMethodMetaKey =
          R.ReadMeta Svcauth.AuthMethodMetaKey) := by
  rcases hms : M.sign R with ⟨r2, e⟩
  rw [hms] at hfail
  simp only at hfail
  subst hfail
  have h1 : Svcauth.Sign M R = (r2, some (Svcauth.SvcAuthError.signFailure cause)) := by
    simp [Svcauth.Sign, hms]
  rw [h1]
  exact ⟨rfl, rfl, fun h => h⟩

/-- Claim C6: with a declared method name, the verification loop invokes
the verify operation of at most one method, namely the first one in the
list whose name is exactly equal to the declared one (exhibited through
the instrumented loop, which agrees with Verify and whose invocation
trace is the first exact match and nothing else). -/
theorem C6_first_exact_match_only (R : Svcauth.Transport) (m : String)
    (loaded : List Svcauth.ServiceAuth)
    (hmeta : R.ReadMeta Svcauth.AuthMethodMetaKey = some m) :
    (Svcauth.verifyLoopTrace R m loaded).1 = Svcauth.Verify R loaded ∧
      (Svcauth.verifyLoopTrace R m loaded).2 =
        ((loaded.find? (fun a => a.method == m)).map (fun a => a.method)).toList ∧
      (Svcauth.verifyLoopTrace R m loaded).2.length ≤ 1 := by
  obtain ⟨h1, h2⟩ := verifyLoopTrace_spec R m loaded
  refine ⟨?_, h2, ?_⟩
  · rw [h1]
    simp [Svcauth.Verify, hmeta]
  · rw [h2]
    cases loaded.find? (fun a => a.method == m) with
    | none => simp
    | some a => simp

/-- Witness for C6: with two loaded methods of the same name, the first
of which fails verification, only the first is consulted. -/
theorem C6_witness :
    (emptyReq.SetMeta Svcauth.AuthMethodMetaKey "m1").ReadMeta
        Svcauth.AuthMethodMetaKey = some "m1" ∧
      (Svcauth.verifyLoopTrace (emptyReq.SetMeta Svcauth.AuthMethodMetaKey "m1") "m1"
          [failVerifyAuth "m1", okAuth "m1"]).1 =
        Svcauth.Verify (emptyReq.SetMeta Svcauth.AuthMethodMetaKey "m1")
          [failVerifyAuth "m1", okAuth "m1"] ∧
      (Svcauth.verifyLoopTrace (emptyReq.SetMeta Svcauth.AuthMethodMetaKey "m1") "m1"
          [failVerifyAuth "m1", okAuth "m1"]).2 = ["m1"] := by
  have h := C6_first_exact_match_only (emptyReq.SetMeta Svcauth.AuthMethodMetaKey "m1")
    "m1" [failVerifyAuth "m1", okAuth "m1"] rfl
  exact ⟨rfl, h.1, by rw [h.2.1]; rfl⟩

/-- Claim C7: two methods with distinct names, each accepting what it
itself signed, verify successfully in a two-element loaded list in either
order: the result is independent of registration order. -/
theorem C7_order_independence (M1 M2 s : Svcauth.ServiceAuth) (R : Svcauth.Transport)
    (hne : M1.method ≠ M2.method)
    (hs : s = M1 ∨ s = M2)
    (hsign : (s.sign R).2 = none)
    (hverify : s.verify ((s.sign R).1.SetMeta Svcauth.AuthMethodMetaKey s.method) = none) :
    Svcauth.Verify ((s.sign R).1.SetMeta Svcauth.AuthMethodMetaKey s.method)
        [M1, M2] = (true, none) ∧
      Svcauth.Verify ((s.sign R).1.SetMeta Svcauth.AuthMethodMetaKey s.method)
        [M2, M1] = (true, none) := by
  rcases hms : s.sign R with ⟨r2, e⟩
  rw [hms] at hsign hverify
  simp only at hsign hverify
  subst hsign
  have hread : (r2.SetMeta Svcauth.AuthMethodMetaKey s.method).ReadMeta
      Svcauth.AuthMethodMetaKey = some s.method :=
    Svcauth.readMeta_setMeta_self r2 Svcauth.AuthMethodMetaKey s.method
  rcases hs with rfl | rfl
  · constructor
    · simp only [Svcauth.Verify, hread, Svcauth.verifyLoop, beq_self_eq_true, if_true]
      rw [hverify]
    · have hb : (M2.method == s.method) = false := beq_eq_false_iff_ne.mpr (Ne.symm hne)
      simp only [Svcauth.Verify, hread, Svcauth.verifyLoop, hb, Bool.false_eq_true,
        if_false, beq_self_eq_true, if_true]
      rw [hverify]
  · constructor
    · have hb : (M1.method == s.method) = false := beq_eq_false_iff_ne.mpr hne
      simp only [Svcauth.Verify, hread, Svcauth.verifyLoop, hb, Bool.false_eq_true,
        if_false, beq_self_eq_true, if_true]
      rw [hverify]
    · simp only [Svcauth.Verify, hread, Svcauth.verifyLoop, beq_self_eq_true, if_true]
      rw [hverify]

/-- Witness for C7 at two concrete methods with distinct names. -/
theorem C7_witness :
    ("m1" : String) ≠ "m2" ∧
      Svcauth.Verify (((okAuth "m1").sign emptyReq).1.SetMeta
          Svcauth.AuthMethodMetaKey (okAuth "m1").method)
        [okAuth "m1", okAuth "m2"] = (true, none) ∧
      Svcauth.Verify (((okAuth "m1").sign emptyReq).1.SetMeta
          Svcauth.AuthMethodMetaKey (okAuth "m1").method)
        [okAuth "m2", okAuth "m1"] = (true, none) := by
  have h := C7_order_independence (okAuth "m1") (okAuth "m2") (okAuth "m1") emptyReq
    (by decide) (Or.inl rfl) rfl rfl
  exact ⟨by decide, h.1, h.2⟩

/-- Witness for C5 at a concrete method whose sign fails. -/
theorem C5_witness :
    ((failSignAuth "m1").sign emptyReq).2 = some "missing key" ∧
      Svcauth.Sign (failSignAuth "m1") emptyReq =
        (emptyReq, some (Svcauth.SvcAuthError.signFailure "missing key")) ∧
      (Svcauth.Sign (failSignAuth "m1") emptyReq).1.ReadMeta
          Svcauth.AuthMethodMetaKey = emptyReq.ReadMeta Svcauth.AuthMethodMetaKey :=
  ⟨rfl, (C5_sign_failure_no_marker (failSignAuth "m1") emptyReq "missing key" rfl).1,
    (C5_sign_failure_no_marker (failSignAuth "m1") emptyReq "missing key" rfl).2.2 rfl⟩
